import Mathlib

/-!
# ringrollers: token circulation and the status recorder

A shallow embedding of `ring.go` and `web.go`.

* A Go `Token` is a struct of two scalars and a `[]string`.  The struct is
  parameterised by the representation `σ` of the slice field, so that the same
  `RingStatus.Set` / `RingStatus.Get` (which copy the struct and nothing else)
  can be read both over slice *contents* (`List String`) and over slice
  *headers* pointing into a memory of string cells.  The circulator never
  writes into an existing backing array that something else still reads, so it
  is stated over contents.
* `http.Post` is a parameter of the protocol functions: a transport that, given
  the URL, the token and the world, either returns a transport error or a
  response status together with the world after the remote side has run, or
  does not return at all (`none`).
* Between the nodes of a network the transport is `deliver`: a request that is
  routed to a node runs that node's `handleToken` to completion (the sender
  blocks in `http.Post`), a request that is not routed reaches no handler and
  is a transport error.  Handlers nest, so `deliver` takes fuel.
* Every `http.Post` call and the `log.Printf` lines of the failure branches are
  collected, in program order, in the list of events an invocation returns.
* `json.Marshal` of a `Token` cannot fail and `Decode` of its output gives the
  token back (strings are Unicode text); the wire therefore carries tokens, and
  a request body that does not decode is the body `none`.
-/

namespace Ringrollers

/-! ## Data model (`ring.go`, `web.go`) -/

/-- Token is the message passed around the ring; `σ` represents `[]string`. -/
structure Token (σ : Type) where
  Issuer : String
  IssuedAt : Int
  Signers : σ
  deriving DecidableEq, Repr

/-- Tokens seen through the contents of their `Signers` slice. -/
abbrev Tok := Token (List String)

/-- RingStatus holds the last completed token (`nil` is `none`). -/
structure RingStatus (σ : Type) where
  lastCompleted : Option (Token σ)

/-- The zero value `&RingStatus{}` created in `main`. -/
def RingStatus.empty {σ : Type} : RingStatus σ := { lastCompleted := none }

/-- Set stores a copy of the token struct (`tokenCopy := *token`). -/
def RingStatus.Set {σ : Type} (_s : RingStatus σ) (token : Token σ) : RingStatus σ :=
  let tokenCopy : Token σ := { Issuer := token.Issuer, IssuedAt := token.IssuedAt, Signers := token.Signers }
  { lastCompleted := some tokenCopy }

/-- Get returns `nil` or a copy of the stored token struct. -/
def RingStatus.Get {σ : Type} (s : RingStatus σ) : Option (Token σ) :=
  match s.lastCompleted with
  | none => none
  | some t =>
    let tokenCopy : Token σ := { Issuer := t.Issuer, IssuedAt := t.IssuedAt, Signers := t.Signers }
    some tokenCopy

/-- Ring is a node of the ring.  `status` is the pointer to the shared
`RingStatus`: `none` for `nil`, otherwise the address of a recorder. -/
structure Ring where
  ID : String
  ListenAddr : String
  PublicAddr : String
  KnownNeighbor : String
  status : Option Nat
  deriving DecidableEq, Repr

/-- NewRing creates a new Ring instance. -/
def NewRing (id listenAddr publicAddr neighborAddr : String) (status : Option Nat) : Ring :=
  { ID := id, ListenAddr := listenAddr, PublicAddr := publicAddr,
    KnownNeighbor := neighborAddr, status := status }

/-! ## Effects -/

/-- What `http.Post` hands back: `err != nil`, or a response with a status code. -/
inductive PostResult where
  | err
  | resp (code : Nat)
  deriving DecidableEq, Repr

/-- `http.StatusOK`. -/
def StatusOK : Nat := 200

/-- `http.StatusBadRequest`. -/
def StatusBadRequest : Nat := 400

/-- Observable steps of one invocation, in program order: each `http.Post`
call and the log lines of the failure branches of `forwardToken`. -/
inductive Event where
  | send (url : String) (token : Tok)
  | emptySigners
  | returnFailed (url : String)
  | unreachable (url : String)
  | nonOK (url : String) (code : Nat)
  deriving DecidableEq, Repr

/-- The `http.Post` calls among the events, as (URL, body) pairs. -/
def sends : List Event → List (String × Tok)
  | [] => []
  | Event.send url token :: es => (url, token) :: sends es
  | _ :: es => sends es

/-- The state outside a single invocation: the `RingStatus` objects by
address, and every `http.Post` attempted so far anywhere, oldest first. -/
structure World where
  recorders : Nat → RingStatus (List String)
  posts : List (String × Tok)

/-- A transport: `none` when the call never returns. -/
abbrev Transport := String → Tok → World → Option (PostResult × World)

/-! ## The circulator (`ring.go`) -/

/-- The closure `returnToIssuer` of `forwardToken`. -/
def returnToIssuer (post : Transport) (token : Tok) (w : World) : Option (World × List Event) :=
  match token.Signers with
  | [] => some (w, [Event.emptySigners])
  | s0 :: _ =>
    let issuerURL := s0 ++ "/token"
    match post issuerURL token w with
    | none => none
    | some (PostResult.err, w1) => some (w1, [Event.send issuerURL token, Event.returnFailed issuerURL])
    | some (PostResult.resp _, w1) => some (w1, [Event.send issuerURL token])

/-- Go `forwardToken`: one delivery attempt to the neighbour, with the return
to the issuer as the fallback. -/
def forwardToken (post : Transport) (r : Ring) (token : Tok) (w : World) :
    Option (World × List Event) :=
  if r.KnownNeighbor = "" then
    returnToIssuer post token w
  else
    let neighborURL := r.KnownNeighbor ++ "/token"
    match post neighborURL token w with
    | none => none
    | some (PostResult.err, w1) =>
      match returnToIssuer post token w1 with
      | none => none
      | some (w2, es) =>
        some (w2, [Event.send neighborURL token, Event.unreachable neighborURL] ++ es)
    | some (PostResult.resp code, w1) =>
      if code ≠ StatusOK then
        some (w1, [Event.send neighborURL token, Event.nonOK neighborURL code])
      else
        some (w1, [Event.send neighborURL token])

/-- Go `verifyRing`: update the shared status when the pointer is not nil. -/
def verifyRing (r : Ring) (token : Tok) (w : World) : World :=
  match r.status with
  | none => w
  | some p =>
    { w with recorders := Function.update w.recorders p ((w.recorders p).Set token) }

/-- Go `handleToken`; the result is the response status, the world and the
events of this invocation. -/
def handleToken (post : Transport) (r : Ring) (body : Option Tok) (w : World) :
    Option (Nat × World × List Event) :=
  match body with
  | none => some (StatusBadRequest, w, [])
  | some token =>
    if token.Issuer = r.ID then
      some (StatusOK, verifyRing r token w, [])
    else
      let token : Tok := { token with Signers := token.Signers ++ [r.PublicAddr] }
      match forwardToken post r token w with
      | none => none
      | some (w1, es) => some (StatusOK, w1, es)

/-- Go `IssueAndPassToken`; `now` is `time.Now().Unix()`. -/
def IssueAndPassToken (post : Transport) (r : Ring) (now : Int) (w : World) :
    Option (World × List Event) :=
  let token : Tok := { Issuer := r.ID, IssuedAt := now, Signers := [r.PublicAddr] }
  forwardToken post r token w

/-! ## The network of nodes -/

/-- The processes and the routing of token URLs.  `route t url` is the index
of the node whose `/token` handler serves a POST to `url` made when `t` posts
have been attempted before it; `none` is a transport error. -/
structure Net where
  nodes : List Ring
  route : Nat → String → Option Nat

/-- `http.Post` between the nodes of `net`: the call is recorded, then the
remote `handleToken` runs to completion before the response comes back.
`fuel` bounds the nesting depth of handlers. -/
def deliver (net : Net) : Nat → Transport
  | 0, _, _, _ => none
  | fuel + 1, url, token, w =>
    let w1 : World := { w with posts := w.posts ++ [(url, token)] }
    match net.route w.posts.length url with
    | none => some (PostResult.err, w1)
    | some j =>
      match net.nodes[j]? with
      | none => some (PostResult.err, w1)
      | some r =>
        match handleToken (deliver net fuel) r (some token) w1 with
        | none => none
        | some (code, w2, _) => some (PostResult.resp code, w2)

/-! ## Sequences of calls on a recorder (`web.go`) -/

/-- One call on a `RingStatus`. -/
inductive Call (σ : Type) where
  | Set (token : Token σ)
  | Get

/-- Runs the calls in order, starting from `s`.  The result has one entry per
call: `none` for a `Set`, `some v` for a `Get` that returned `v`. -/
def runCalls {σ : Type} (s : RingStatus σ) : List (Call σ) → List (Option (Option (Token σ)))
  | [] => []
  | Call.Set token :: cs => none :: runCalls (s.Set token) cs
  | Call.Get :: cs => some s.Get :: runCalls s cs

/-- The argument of the last `Set` in a list of calls, if there is one. -/
def lastSet {σ : Type} : List (Call σ) → Option (Token σ)
  | [] => none
  | Call.Set token :: cs => (lastSet cs).orElse (fun _ => some token)
  | Call.Get :: cs => lastSet cs

/-! ## Slices in memory -/

/-- A Go slice header: address of the first element, length and capacity. -/
structure Slice where
  ptr : Nat
  len : Nat
  cap : Nat
  deriving DecidableEq, Repr

/-- The string cells of a process, by address. -/
abbrev Mem := Nat → String

/-- The elements a slice header denotes in a memory. -/
def Slice.contents (m : Mem) (s : Slice) : List String :=
  (List.range s.len).map (fun i => m (s.ptr + i))

/-- The Go statement `s[i] = v`; `none` is the index-out-of-range panic. -/
def Slice.assign (m : Mem) (s : Slice) (i : Nat) (v : String) : Option Mem :=
  if i < s.len then some (Function.update m (s.ptr + i) v) else none

/-- What a token struct denotes in a memory. -/
def Token.view (m : Mem) (t : Token Slice) : Tok :=
  { Issuer := t.Issuer, IssuedAt := t.IssuedAt, Signers := t.Signers.contents m }

/-! ## Auxiliary definitions for the statements -/

/-- A transport that always returns. -/
def total (post : String → Tok → World → PostResult × World) : Transport :=
  fun url token w => some (post url token w)

/-- The token `handleToken` hands to `forwardToken` when it is not the issuer. -/
def signed (r : Ring) (token : Tok) : Tok :=
  { Issuer := token.Issuer, IssuedAt := token.IssuedAt, Signers := token.Signers ++ [r.PublicAddr] }

/-- The world after one more `http.Post` has been attempted. -/
def World.posted (w : World) (url : String) (token : Tok) : World :=
  { w with posts := w.posts ++ [(url, token)] }

/-- The posts of an unbroken traversal from the point where `r` holds the
token with signers `sig`, the nodes still to be visited being `rs`: `r` sends
what it holds, every later node sends it with its own address appended. -/
def hopPosts (issuer : String) (now : Int) : List String → Ring → List Ring → List (String × Tok)
  | sig, r, [] => [(r.KnownNeighbor ++ "/token", { Issuer := issuer, IssuedAt := now, Signers := sig })]
  | sig, r, n :: rs =>
    (r.KnownNeighbor ++ "/token", { Issuer := issuer, IssuedAt := now, Signers := sig })
      :: hopPosts issuer now (sig ++ [n.PublicAddr]) n rs

/-- The neighbour address of `x` is configured and always delivers to `y`. -/
def Link (net : Net) (x y : Ring) : Prop :=
  x.KnownNeighbor ≠ "" ∧
    ∀ t, ∃ j, net.route t (x.KnownNeighbor ++ "/token") = some j ∧ net.nodes[j]? = some y

/-! ## Concrete nodes, tokens, worlds and networks -/

/-- A world in which no traversal has completed and nothing was sent. -/
def freshWorld : World := { recorders := fun _ => RingStatus.empty, posts := [] }

/-- A transport on which every delivery fails. -/
def deadTransport : Transport := total (fun _ _ w => (PostResult.err, w))

/-- A node B with neighbour C and recorder 1. -/
def nodeB : Ring := NewRing "B" ":8081" "http://b" "http://c" (some 1)

/-- A token issued by A that carries no signer. -/
def unsignedToken : Tok := { Issuer := "A", IssuedAt := 0, Signers := [] }

/-- A token issued by A at its creation. -/
def tokenFromA : Tok := { Issuer := "A", IssuedAt := 0, Signers := ["http://a"] }

/-- A token that names B as its issuer and carries no signer. -/
def unsignedTokenOfB : Tok := { Issuer := "B", IssuedAt := 7, Signers := [] }

/-- A token issued by B. -/
def tokenFromB : Tok := { Issuer := "B", IssuedAt := 3, Signers := ["http://b", "http://c"] }

/-- A memory holding the two signers of a completed traversal at addresses 0 and 1. -/
def memAB : Mem := fun a => if a = 0 then "http://a" else if a = 1 then "http://b" else ""

/-- The completed token of A, its signers stored at address 0. -/
def completedOfA : Token Slice :=
  { Issuer := "A", IssuedAt := 0, Signers := { ptr := 0, len := 2, cap := 2 } }

/-- A network in which nothing is reachable. -/
def deadNet : Net := { nodes := [nodeB], route := fun _ _ => none }

/-- A node A without a neighbour, with recorder 0. -/
def loneNode : Ring := NewRing "A" ":8080" "http://a" "" (some 0)

/-- A network whose only node cannot be reached at its public address. -/
def isolatedNet : Net := { nodes := [loneNode], route := fun _ _ => none }

/-- A network whose only node serves its own public address. -/
def loopbackNet : Net :=
  { nodes := [loneNode], route := fun _ url => if url = "http://a/token" then some 0 else none }

/-- A node A with neighbour B and recorder 0. -/
def nodeA : Ring := NewRing "A" ":8080" "http://a" "http://b" (some 0)

/-- A node C with neighbour A and recorder 2. -/
def nodeC : Ring := NewRing "C" ":8082" "http://c" "http://a" (some 2)

/-- The ring A, B, C in which C is down. -/
def brokenNet : Net :=
  { nodes := [nodeA, nodeB, nodeC],
    route := fun _ url =>
      if url = "http://a/token" then some 0 else if url = "http://b/token" then some 1 else none }

/-- The ring A → B → C → A with every node up. -/
def ringABC : Net :=
  { nodes := [nodeA, nodeB, nodeC],
    route := fun _ url =>
      if url = "http://a/token" then some 0
      else if url = "http://b/token" then some 1
      else if url = "http://c/token" then some 2 else none }

/-! ## Local behaviour of the circulator -/

theorem handleToken_forward (post : Transport) (r : Ring) (token : Tok) (w : World)
    (h : token.Issuer ≠ r.ID) :
    handleToken post r (some token) w
      = (forwardToken post r (signed r token) w).map (fun res => (StatusOK, res.1, res.2)) := by
  unfold handleToken
  simp only [h, if_false, signed]
  cases forwardToken post r
    { Issuer := token.Issuer, IssuedAt := token.IssuedAt, Signers := token.Signers ++ [r.PublicAddr] } w <;> rfl

theorem returnToIssuer_err (post : Transport) (token : Tok) (w w1 : World) (s0 : String)
    (rest : List String) (hs : token.Signers = s0 :: rest)
    (hp : post (s0 ++ "/token") token w = some (PostResult.err, w1)) :
    returnToIssuer post token w
      = some (w1, [Event.send (s0 ++ "/token") token, Event.returnFailed (s0 ++ "/token")]) := by
  unfold returnToIssuer
  rw [hs]
  simp only [hp]

theorem returnToIssuer_resp (post : Transport) (token : Tok) (w w1 : World) (s0 : String)
    (rest : List String) (code : Nat) (hs : token.Signers = s0 :: rest)
    (hp : post (s0 ++ "/token") token w = some (PostResult.resp code, w1)) :
    returnToIssuer post token w = some (w1, [Event.send (s0 ++ "/token") token]) := by
  unfold returnToIssuer
  rw [hs]
  simp only [hp]

theorem forwardToken_no_neighbor (post : Transport) (r : Ring) (token : Tok) (w : World)
    (hn : r.KnownNeighbor = "") :
    forwardToken post r token w = returnToIssuer post token w := by
  unfold forwardToken
  simp only [hn, if_true]

theorem forwardToken_err (post : Transport) (r : Ring) (token : Tok) (w w1 : World)
    (hn : r.KnownNeighbor ≠ "")
    (hp : post (r.KnownNeighbor ++ "/token") token w = some (PostResult.err, w1)) :
    forwardToken post r token w
      = (returnToIssuer post token w1).map (fun res =>
          (res.1, [Event.send (r.KnownNeighbor ++ "/token") token,
                   Event.unreachable (r.KnownNeighbor ++ "/token")] ++ res.2)) := by
  unfold forwardToken
  simp only [hn, if_false, hp]
  cases returnToIssuer post token w1 <;> rfl

theorem forwardToken_ok (post : Transport) (r : Ring) (token : Tok) (w w1 : World)
    (hn : r.KnownNeighbor ≠ "")
    (hp : post (r.KnownNeighbor ++ "/token") token w = some (PostResult.resp StatusOK, w1)) :
    forwardToken post r token w = some (w1, [Event.send (r.KnownNeighbor ++ "/token") token]) := by
  unfold forwardToken
  simp only [hn, if_false, hp, ne_eq, not_true_eq_false]

theorem forwardToken_nonOK (post : Transport) (r : Ring) (token : Tok) (w w1 : World)
    (code : Nat) (hn : r.KnownNeighbor ≠ "") (hc : code ≠ StatusOK)
    (hp : post (r.KnownNeighbor ++ "/token") token w = some (PostResult.resp code, w1)) :
    forwardToken post r token w
      = some (w1, [Event.send (r.KnownNeighbor ++ "/token") token,
                   Event.nonOK (r.KnownNeighbor ++ "/token") code]) := by
  unfold forwardToken
  simp only [hn, if_false, hp, ne_eq, hc, not_false_eq_true, if_true]

/-! ## C2 -/

/-- C2, refuted as stated: for the token with empty signers the delivery to
the neighbour fails with a transport error and yet `forwardToken` makes no
fallback send; its only send is the one to the neighbour. -/
theorem forwardToken_empty_signers_no_fallback :
    (deadTransport (nodeB.KnownNeighbor ++ "/token") unsignedToken freshWorld).map Prod.fst
        = some PostResult.err ∧
      (forwardToken deadTransport nodeB unsignedToken freshWorld).map (fun res => res.2)
        = some [Event.send "http://c/token" unsignedToken,
                Event.unreachable "http://c/token", Event.emptySigners] ∧
      (forwardToken deadTransport nodeB unsignedToken freshWorld).map (fun res => sends res.2)
        = some [("http://c/token", unsignedToken)] := by
  refine ⟨rfl, ?_, ?_⟩ <;> rfl

/-- C2, amended: for a token with a non-empty signers list and a node with a
configured neighbour, `forwardToken` returns, its sends are the one to the
neighbour followed by exactly one fallback send to `signers[0] + "/token"` with
the same token if the neighbour delivery gave a transport error, and by nothing
if the neighbour answered with any status. -/
theorem forwardToken_fallback_iff_transport_error
    (post : String → Tok → World → PostResult × World) (r : Ring) (token : Tok) (w : World)
    (s0 : String) (rest : List String)
    (hn : r.KnownNeighbor ≠ "") (hs : token.Signers = s0 :: rest) :
    ∃ w1 es, forwardToken (total post) r token w = some (w1, es) ∧
      sends es = (r.KnownNeighbor ++ "/token", token) ::
        (if (post (r.KnownNeighbor ++ "/token") token w).1 = PostResult.err
          then [(s0 ++ "/token", token)] else []) := by
  rcases hp : post (r.KnownNeighbor ++ "/token") token w with ⟨res, w1⟩
  have hp1 : total post (r.KnownNeighbor ++ "/token") token w = some (res, w1) := by
    simp only [total, hp]
  cases res with
  | err =>
    rcases hq : post (s0 ++ "/token") token w1 with ⟨res2, w2⟩
    have hq1 : total post (s0 ++ "/token") token w1 = some (res2, w2) := by
      simp only [total, hq]
    rw [forwardToken_err _ r token w w1 hn hp1]
    cases res2 with
    | err =>
      rw [returnToIssuer_err _ token w1 w2 s0 rest hs hq1]
      exact ⟨_, _, rfl, by simp [sends]⟩
    | resp code =>
      rw [returnToIssuer_resp _ token w1 w2 s0 rest code hs hq1]
      exact ⟨_, _, rfl, by simp [sends]⟩
  | resp code =>
    by_cases hc : code = StatusOK
    · subst hc
      rw [forwardToken_ok _ r token w w1 hn hp1]
      exact ⟨_, _, rfl, by simp [sends]⟩
    · rw [forwardToken_nonOK _ r token w w1 code hn hc hp1]
      exact ⟨_, _, rfl, by simp [sends]⟩

theorem forwardToken_fallback_iff_transport_error_witness :
    ∃ w1 es, forwardToken (total (fun _ _ w => (PostResult.err, w))) nodeB tokenFromA freshWorld
        = some (w1, es) ∧
      sends es = ("http://c" ++ "/token", tokenFromA) ::
        (if ((fun (_ : String) (_ : Tok) (w : World) => (PostResult.err, w))
              (nodeB.KnownNeighbor ++ "/token") tokenFromA freshWorld).1 = PostResult.err
          then [("http://a" ++ "/token", tokenFromA)] else []) :=
  forwardToken_fallback_iff_transport_error (fun _ _ w => (PostResult.err, w)) nodeB tokenFromA
    freshWorld "http://a" [] (by decide) rfl

/-! ## C4 -/

theorem verifyRing_posts (r : Ring) (token : Tok) (w : World) :
    (verifyRing r token w).posts = w.posts := by
  unfold verifyRing
  cases r.status <;> rfl

theorem verifyRing_Get (r : Ring) (token : Tok) (w : World) (p : Nat)
    (hp : r.status = some p) :
    ((verifyRing r token w).recorders p).Get = some token := by
  unfold verifyRing
  rw [hp]
  simp [RingStatus.Get, RingStatus.Set]

theorem verifyRing_other (r : Ring) (token : Tok) (w : World) (q : Nat)
    (hq : r.status ≠ some q) :
    (verifyRing r token w).recorders q = w.recorders q := by
  unfold verifyRing
  cases hs : r.status with
  | none => rfl
  | some p =>
    have hne : q ≠ p := fun h => hq (by rw [hs, h])
    simp [Function.update, hne]

/-- C4: a decoded token whose issuer is the receiving node's id closes the
loop whatever its signers are: `handleToken` answers 200, makes no send (it has
no event at all and does not use the transport), and its only effect is
`verifyRing` on the unchanged token, after which the node's recorder returns
exactly that token and every other recorder and the post record are as before. -/
theorem handleToken_issuer_closes_loop (post : Transport) (r : Ring) (token : Tok) (w : World)
    (h : token.Issuer = r.ID) :
    handleToken post r (some token) w = some (StatusOK, verifyRing r token w, []) ∧
      (verifyRing r token w).posts = w.posts ∧
      (∀ p, r.status = some p → ((verifyRing r token w).recorders p).Get = some token) ∧
      (∀ q, r.status ≠ some q → (verifyRing r token w).recorders q = w.recorders q) := by
  refine ⟨?_, verifyRing_posts r token w, fun p hp => verifyRing_Get r token w p hp,
    fun q hq => verifyRing_other r token w q hq⟩
  unfold handleToken
  simp only [h, if_true]

theorem handleToken_issuer_closes_loop_witness :
    handleToken deadTransport nodeB (some unsignedTokenOfB) freshWorld
        = some (StatusOK, verifyRing nodeB unsignedTokenOfB freshWorld, []) ∧
      (verifyRing nodeB unsignedTokenOfB freshWorld).posts = freshWorld.posts ∧
      (∀ p, nodeB.status = some p →
        ((verifyRing nodeB unsignedTokenOfB freshWorld).recorders p).Get = some unsignedTokenOfB) ∧
      (∀ q, nodeB.status ≠ some q →
        (verifyRing nodeB unsignedTokenOfB freshWorld).recorders q = freshWorld.recorders q) :=
  handleToken_issuer_closes_loop deadTransport nodeB unsignedTokenOfB freshWorld rfl

/-! ## C9 -/

/-- C9: when the decoded token's issuer differs from the node's id, the token
`handleToken` gives to `forwardToken` keeps issuer and issued_at, and its
signers are the incoming ones, in order, followed by exactly one new entry, the
node's public address; the first element of a non-empty list is unchanged. -/
theorem handleToken_appends_own_address (r : Ring) (token : Tok)
    (h : token.Issuer ≠ r.ID) :
    ∃ t : Tok,
      (∀ (post : Transport) (w : World), handleToken post r (some token) w
        = (forwardToken post r t w).map (fun res => (StatusOK, res.1, res.2))) ∧
      t.Issuer = token.Issuer ∧ t.IssuedAt = token.IssuedAt ∧
      t.Signers = token.Signers ++ [r.PublicAddr] ∧
      t.Signers.length = token.Signers.length + 1 ∧
      t.Signers.take token.Signers.length = token.Signers ∧
      (token.Signers ≠ [] → t.Signers.head? = token.Signers.head?) := by
  refine ⟨signed r token, fun post w => handleToken_forward post r token w h, rfl, rfl, rfl,
    by simp [signed], by simp [signed], ?_⟩
  intro hne
  cases hs : token.Signers with
  | nil => exact absurd hs hne
  | cons a l => simp [signed, hs]

theorem handleToken_appends_own_address_witness :
    ∃ t : Tok,
      (∀ (post : Transport) (w : World), handleToken post nodeB (some tokenFromA) w
        = (forwardToken post nodeB t w).map (fun res => (StatusOK, res.1, res.2))) ∧
      t.Issuer = tokenFromA.Issuer ∧ t.IssuedAt = tokenFromA.IssuedAt ∧
      t.Signers = tokenFromA.Signers ++ [nodeB.PublicAddr] ∧
      t.Signers.length = tokenFromA.Signers.length + 1 ∧
      t.Signers.take tokenFromA.Signers.length = tokenFromA.Signers ∧
      (tokenFromA.Signers ≠ [] → t.Signers.head? = tokenFromA.Signers.head?) :=
  handleToken_appends_own_address nodeB tokenFromA (by decide)

/-! ## C10 -/

theorem returnToIssuer_signed (post : Transport) (token : Tok) (w w1 : World)
    (es : List Event) (hs : token.Signers ≠ [])
    (h : returnToIssuer post token w = some (w1, es)) : Event.emptySigners ∉ es := by
  cases hsig : token.Signers with
  | nil => exact absurd hsig hs
  | cons s0 rest =>
    cases hp : post (s0 ++ "/token") token w with
    | none =>
      unfold returnToIssuer at h
      rw [hsig] at h
      simp [hp] at h
    | some pr =>
      rcases pr with ⟨res, w2⟩
      cases res with
      | err =>
        rw [returnToIssuer_err post token w w2 s0 rest hsig hp] at h
        simp only [Option.some.injEq, Prod.mk.injEq] at h
        rw [← h.2]
        simp
      | resp code =>
        rw [returnToIssuer_resp post token w w2 s0 rest code hsig hp] at h
        simp only [Option.some.injEq, Prod.mk.injEq] at h
        rw [← h.2]
        simp

theorem forwardToken_signed (post : Transport) (r : Ring) (token : Tok) (w w1 : World)
    (es : List Event) (hs : token.Signers ≠ [])
    (h : forwardToken post r token w = some (w1, es)) : Event.emptySigners ∉ es := by
  by_cases hn : r.KnownNeighbor = ""
  · rw [forwardToken_no_neighbor post r token w hn] at h
    exact returnToIssuer_signed post token w w1 es hs h
  · cases hp : post (r.KnownNeighbor ++ "/token") token w with
    | none =>
      unfold forwardToken at h
      simp [hn, hp] at h
    | some pr =>
      rcases pr with ⟨res, w2⟩
      cases res with
      | err =>
        rw [forwardToken_err post r token w w2 hn hp] at h
        cases hr : returnToIssuer post token w2 with
        | none => simp [hr] at h
        | some q =>
          rcases q with ⟨w3, es3⟩
          have h3 := returnToIssuer_signed post token w2 w3 es3 hs hr
          simp only [hr, Option.map_some', Option.some.injEq, Prod.mk.injEq] at h
          rw [← h.2]
          simpa using h3
      | resp code =>
        by_cases hc : code = StatusOK
        · subst hc
          rw [forwardToken_ok post r token w w2 hn hp] at h
          simp only [Option.some.injEq, Prod.mk.injEq] at h
          rw [← h.2]
          simp
        · rw [forwardToken_nonOK post r token w w2 code hn hc hp] at h
          simp only [Option.some.injEq, Prod.mk.injEq] at h
          rw [← h.2]
          simp

/-- C10: the token `IssueAndPassToken` gives to `forwardToken` and the token
`handleToken` gives to it (for any decoded payload, also one with empty
signers) have a non-empty signers list, so `signers[0]` exists; and no
invocation of either entry point, whatever the request body and the transport,
ever reaches the empty-signers branch of the fallback. -/
theorem forwardToken_inputs_signed (post : Transport) (r : Ring) (w : World) :
    (∀ now : Int, ∃ t : Tok, t.Signers ≠ [] ∧ t.Signers[0]? = some r.PublicAddr ∧
        IssueAndPassToken post r now w = forwardToken post r t w) ∧
      (∀ token : Tok, token.Issuer ≠ r.ID → ∃ t : Tok, t.Signers ≠ [] ∧ 0 < t.Signers.length ∧
        handleToken post r (some token) w
          = (forwardToken post r t w).map (fun res => (StatusOK, res.1, res.2))) ∧
      (∀ (now : Int) (w1 : World) (es : List Event),
        IssueAndPassToken post r now w = some (w1, es) → Event.emptySigners ∉ es) ∧
      (∀ (body : Option Tok) (code : Nat) (w1 : World) (es : List Event),
        handleToken post r body w = some (code, w1, es) → Event.emptySigners ∉ es) := by
  refine ⟨fun now => ⟨_, ?_, ?_, rfl⟩, fun token h => ⟨signed r token, ?_, ?_,
    handleToken_forward post r token w h⟩, ?_, ?_⟩
  · simp
  · simp
  · simp [signed]
  · simp [signed]
  · intro now w1 es h
    exact forwardToken_signed post r _ w w1 es (by simp) h
  · intro body code w1 es h
    cases body with
    | none =>
      simp only [handleToken, Option.some.injEq, Prod.mk.injEq] at h
      rw [← h.2.2]
      simp
    | some token =>
      by_cases hi : token.Issuer = r.ID
      · simp only [handleToken, hi, if_true, Option.some.injEq, Prod.mk.injEq] at h
        rw [← h.2.2]
        simp
      · rw [handleToken_forward post r token w hi] at h
        cases hf : forwardToken post r (signed r token) w with
        | none => simp [hf] at h
        | some q =>
          rcases q with ⟨w2, es2⟩
          simp only [hf, Option.map_some', Option.some.injEq, Prod.mk.injEq] at h
          rw [← h.2.2]
          exact forwardToken_signed post r (signed r token) w w2 es2 (by simp [signed]) hf

/-! ## C5 -/

theorem runCalls_Get {σ : Type} (calls : List (Call σ)) :
    ∀ (s : RingStatus σ) (i : Nat), calls[i]? = some Call.Get →
      (runCalls s calls)[i]? = some (some ((lastSet (calls.take i)).orElse (fun _ => s.Get))) := by
  induction calls with
  | nil => intro s i h; simp at h
  | cons c cs ih =>
    intro s i h
    cases i with
    | zero =>
      simp only [List.getElem?_cons_zero, Option.some.injEq] at h
      subst h
      simp [runCalls, lastSet]
    | succ k =>
      simp only [List.getElem?_cons_succ] at h
      cases c with
      | Get =>
        simp only [runCalls, List.getElem?_cons_succ, List.take_succ_cons, lastSet]
        exact ih s k h
      | Set token =>
        simp only [runCalls, List.getElem?_cons_succ, List.take_succ_cons, lastSet]
        rw [ih (s.Set token) k h]
        cases lastSet (cs.take k) <;> simp [RingStatus.Get, RingStatus.Set]

theorem lastSet_append_Gets {σ : Type} (xs ys : List (Call σ))
    (h : ∀ c ∈ ys, c = Call.Get) : lastSet (xs ++ ys) = lastSet xs := by
  induction xs with
  | nil =>
    induction ys with
    | nil => rfl
    | cons y ys ih =>
      have hy : y = Call.Get := h y (List.mem_cons_self _ _)
      subst hy
      simp only [List.nil_append, lastSet] at ih ⊢
      exact ih (fun c hc => h c (List.mem_cons_of_mem _ hc))
  | cons x xs ih =>
    cases x with
    | Get => simpa [lastSet] using ih
    | Set token =>
      show (lastSet (xs ++ ys)).orElse (fun _ => some token) = (lastSet xs).orElse (fun _ => some token)
      rw [ih]

/-- C5: on a recorder that starts empty, the `Get` at any position `i` of a
sequence of `Set` and `Get` calls returns `none` when no `Set` precedes it and
otherwise the argument (issuer, issued_at and signers) of the last `Set` before
it; and a later `Get` at `i + k + 1` with no `Set` in between returns the same
value. -/
theorem Get_returns_last_Set {σ : Type} (calls : List (Call σ)) (i : Nat)
    (h : calls[i]? = some Call.Get) :
    (runCalls RingStatus.empty calls)[i]? = some (some (lastSet (calls.take i))) ∧
      (∀ k : Nat, calls[i + k + 1]? = some Call.Get →
        (∀ c ∈ (calls.take (i + k + 1)).drop i, c = Call.Get) →
        (runCalls RingStatus.empty calls)[i + k + 1]? = (runCalls RingStatus.empty calls)[i]?) := by
  have key : ∀ j, calls[j]? = some Call.Get →
      (runCalls RingStatus.empty calls)[j]? = some (some (lastSet (calls.take j))) := by
    intro j hj
    rw [runCalls_Get calls RingStatus.empty j hj]
    cases lastSet (calls.take j) <;> simp [RingStatus.Get, RingStatus.empty]
  refine ⟨key i h, fun k hk hno => ?_⟩
  rw [key i h, key (i + k + 1) hk]
  have hsplit : calls.take (i + k + 1) = calls.take i ++ (calls.take (i + k + 1)).drop i := by
    conv_lhs => rw [← List.take_append_drop i (calls.take (i + k + 1))]
    rw [List.take_take]
    congr 2
    omega
  rw [hsplit, lastSet_append_Gets _ _ hno]

theorem Get_returns_last_Set_witness :
    (runCalls RingStatus.empty
        [Call.Get, Call.Set tokenFromA, Call.Set tokenFromB, Call.Get, Call.Get])[3]?
        = some (some (lastSet
            ([Call.Get, Call.Set tokenFromA, Call.Set tokenFromB, Call.Get, Call.Get].take 3))) ∧
      (∀ k : Nat,
        [Call.Get, Call.Set tokenFromA, Call.Set tokenFromB, Call.Get, Call.Get][3 + k + 1]?
          = some Call.Get →
        (∀ c ∈ ([Call.Get, Call.Set tokenFromA, Call.Set tokenFromB, Call.Get, Call.Get].take
            (3 + k + 1)).drop 3, c = Call.Get) →
        (runCalls RingStatus.empty
          [Call.Get, Call.Set tokenFromA, Call.Set tokenFromB, Call.Get, Call.Get])[3 + k + 1]?
          = (runCalls RingStatus.empty
              [Call.Get, Call.Set tokenFromA, Call.Set tokenFromB, Call.Get, Call.Get])[3]?) :=
  Get_returns_last_Set [Call.Get, Call.Set tokenFromA, Call.Set tokenFromB, Call.Get, Call.Get] 3 rfl

/-! ## C6 -/

/-- C6, evaluated at the failing input: after `Set`, the token returned by
`Get` denotes the signers `[http://a, http://b]`; overwriting element 0 of the
returned token's signers with `x` changes what the next `Get` returns to
`[x, http://b]`, because the returned struct shares the stored backing array. -/
theorem Get_shares_signers_array :
    ((RingStatus.empty.Set completedOfA).Get).map (Token.view memAB)
        = some { Issuer := "A", IssuedAt := 0, Signers := ["http://a", "http://b"] } ∧
      (((RingStatus.empty.Set completedOfA).Get).bind (fun g =>
          (g.Signers.assign memAB 0 "x").bind (fun m1 =>
            ((RingStatus.empty.Set completedOfA).Get).map (Token.view m1))))
        = some { Issuer := "A", IssuedAt := 0, Signers := ["x", "http://b"] } := by
  constructor <;> decide

/-! ## Deliveries between nodes -/

theorem deliver_unreachable (net : Net) (fuel : Nat) (url : String) (token : Tok) (w : World)
    (h : net.route w.posts.length url = none) :
    deliver net (fuel + 1) url token w = some (PostResult.err, w.posted url token) := by
  simp only [deliver, h, World.posted]

theorem deliver_closes (net : Net) (fuel : Nat) (url : String) (token : Tok) (w : World)
    (j : Nat) (r : Ring) (h : net.route w.posts.length url = some j)
    (hj : net.nodes[j]? = some r) (hi : token.Issuer = r.ID) :
    deliver net (fuel + 1) url token w
      = some (PostResult.resp StatusOK, verifyRing r token (w.posted url token)) := by
  simp only [deliver, h, hj, handleToken, hi, if_true, World.posted]

theorem deliver_forwards (net : Net) (fuel : Nat) (url : String) (token : Tok) (w : World)
    (j : Nat) (r : Ring) (h : net.route w.posts.length url = some j)
    (hj : net.nodes[j]? = some r) (hi : token.Issuer ≠ r.ID) :
    deliver net (fuel + 1) url token w
      = (forwardToken (deliver net fuel) r (signed r token) (w.posted url token)).map
          (fun res => (PostResult.resp StatusOK, res.1)) := by
  simp only [deliver, h, hj]
  rw [show ({ recorders := w.recorders, posts := w.posts ++ [(url, token)] } : World)
    = w.posted url token from rfl]
  rw [handleToken_forward _ r token _ hi]
  cases forwardToken (deliver net fuel) r (signed r token) (w.posted url token) <;> rfl

/-! ## C3 -/

/-- C3: on a node with a configured neighbour, if the delivery to the neighbour
fails and the delivery to `signers[0]` fails too, `forwardToken` returns after
exactly these two attempts, the token is dropped, and every recorder (the
node's own included) holds what it held before, so `Get` returns the same value
as before, `none` if nothing had completed. -/
theorem forwardToken_dropped_when_both_fail (net : Net) (fuel : Nat) (r : Ring) (token : Tok)
    (w : World) (s0 : String) (rest : List String)
    (hn : r.KnownNeighbor ≠ "") (hs : token.Signers = s0 :: rest)
    (h1 : net.route w.posts.length (r.KnownNeighbor ++ "/token") = none)
    (h2 : net.route (w.posts.length + 1) (s0 ++ "/token") = none) :
    ∃ w1, forwardToken (deliver net (fuel + 1)) r token w
        = some (w1, [Event.send (r.KnownNeighbor ++ "/token") token,
                     Event.unreachable (r.KnownNeighbor ++ "/token"),
                     Event.send (s0 ++ "/token") token,
                     Event.returnFailed (s0 ++ "/token")]) ∧
      w1.posts = w.posts ++ [(r.KnownNeighbor ++ "/token", token), (s0 ++ "/token", token)] ∧
      w1.recorders = w.recorders ∧
      ∀ p, (w1.recorders p).Get = (w.recorders p).Get := by
  have e1 := deliver_unreachable net fuel (r.KnownNeighbor ++ "/token") token w h1
  have e2 := deliver_unreachable net fuel (s0 ++ "/token") token
    (w.posted (r.KnownNeighbor ++ "/token") token) (by simpa [World.posted] using h2)
  refine ⟨(w.posted (r.KnownNeighbor ++ "/token") token).posted (s0 ++ "/token") token, ?_, ?_,
    rfl, fun p => rfl⟩
  · rw [forwardToken_err _ r token w _ hn e1, returnToIssuer_err _ token _ _ s0 rest hs e2]
    rfl
  · simp [World.posted]

theorem forwardToken_dropped_when_both_fail_witness :
    ∃ w1, forwardToken (deliver deadNet (0 + 1)) nodeB tokenFromA freshWorld
        = some (w1, [Event.send (nodeB.KnownNeighbor ++ "/token") tokenFromA,
                     Event.unreachable (nodeB.KnownNeighbor ++ "/token"),
                     Event.send ("http://a" ++ "/token") tokenFromA,
                     Event.returnFailed ("http://a" ++ "/token")]) ∧
      w1.posts = freshWorld.posts ++
        [(nodeB.KnownNeighbor ++ "/token", tokenFromA), ("http://a" ++ "/token", tokenFromA)] ∧
      w1.recorders = freshWorld.recorders ∧
      ∀ p, (w1.recorders p).Get = (freshWorld.recorders p).Get :=
  forwardToken_dropped_when_both_fail deadNet 0 nodeB tokenFromA freshWorld "http://a" []
    (by decide) rfl rfl rfl

/-! ## C7 -/

/-- C7, refuted as stated: a node without a neighbour whose public address
cannot be reached issues a token, the single send (to its own address) fails,
and its recorder still holds nothing. -/
theorem lone_node_unreachable_records_nothing :
    loneNode.KnownNeighbor = "" ∧
      (IssueAndPassToken (deliver isolatedNet 4) loneNode 0 freshWorld).map (fun res => res.2)
        = some [Event.send "http://a/token" tokenFromA, Event.returnFailed "http://a/token"] ∧
      (IssueAndPassToken (deliver isolatedNet 4) loneNode 0 freshWorld).map
          (fun res => (res.1.recorders 0).Get)
        = some none := by
  refine ⟨rfl, ?_, ?_⟩ <;> rfl

/-- C7, amended: a node without a configured neighbour issues a token with
issuer = own id and signers = [own public address] and hands it directly to the
return-to-issuer path; whatever the transport does, its only send is the one
addressed to its own public address (no neighbour is contacted); and provided
that address is served by the node itself, the traversal completes and the
node's recorder then holds the token with signers = [own public address]. -/
theorem lone_node_issue_completes (r : Ring) (now : Int) (hn : r.KnownNeighbor = "") :
    (∀ (post : Transport) (w : World), IssueAndPassToken post r now w
        = returnToIssuer post { Issuer := r.ID, IssuedAt := now, Signers := [r.PublicAddr] } w) ∧
      (∀ (post : Transport) (w w1 : World) (es : List Event),
        IssueAndPassToken post r now w = some (w1, es) →
        sends es = [(r.PublicAddr ++ "/token",
                      { Issuer := r.ID, IssuedAt := now, Signers := [r.PublicAddr] })]) ∧
      (∀ (net : Net) (fuel j p : Nat) (w : World),
        net.route w.posts.length (r.PublicAddr ++ "/token") = some j →
        net.nodes[j]? = some r → r.status = some p →
        ∃ w1, IssueAndPassToken (deliver net (fuel + 1)) r now w
            = some (w1, [Event.send (r.PublicAddr ++ "/token")
                          { Issuer := r.ID, IssuedAt := now, Signers := [r.PublicAddr] }]) ∧
          w1.posts = w.posts ++ [(r.PublicAddr ++ "/token",
                          { Issuer := r.ID, IssuedAt := now, Signers := [r.PublicAddr] })] ∧
          (w1.recorders p).Get
            = some { Issuer := r.ID, IssuedAt := now, Signers := [r.PublicAddr] }) := by
  have hissue : ∀ (post : Transport) (w : World), IssueAndPassToken post r now w
      = returnToIssuer post { Issuer := r.ID, IssuedAt := now, Signers := [r.PublicAddr] } w := by
    intro post w
    unfold IssueAndPassToken
    exact forwardToken_no_neighbor post r _ w hn
  refine ⟨hissue, ?_, ?_⟩
  · intro post w w1 es h
    rw [hissue] at h
    cases hp : post (r.PublicAddr ++ "/token")
        { Issuer := r.ID, IssuedAt := now, Signers := [r.PublicAddr] } w with
    | none =>
      unfold returnToIssuer at h
      simp [hp] at h
    | some pr =>
      rcases pr with ⟨res, w2⟩
      cases res with
      | err =>
        rw [returnToIssuer_err post _ w w2 r.PublicAddr [] rfl hp] at h
        simp only [Option.some.injEq, Prod.mk.injEq] at h
        rw [← h.2]
        rfl
      | resp code =>
        rw [returnToIssuer_resp post _ w w2 r.PublicAddr [] code rfl hp] at h
        simp only [Option.some.injEq, Prod.mk.injEq] at h
        rw [← h.2]
        rfl
  · intro net fuel j p w hroute hj hst
    have e := deliver_closes net fuel (r.PublicAddr ++ "/token")
      { Issuer := r.ID, IssuedAt := now, Signers := [r.PublicAddr] } w j r hroute hj rfl
    refine ⟨verifyRing r { Issuer := r.ID, IssuedAt := now, Signers := [r.PublicAddr] }
      (w.posted (r.PublicAddr ++ "/token")
        { Issuer := r.ID, IssuedAt := now, Signers := [r.PublicAddr] }), ?_, ?_, ?_⟩
    · rw [hissue]
      exact returnToIssuer_resp _ _ w _ r.PublicAddr [] StatusOK rfl e
    · rw [verifyRing_posts]
      rfl
    · exact verifyRing_Get r _ _ p hst

theorem lone_node_issue_completes_witness :
    loneNode.KnownNeighbor = "" ∧
      ∃ w1, IssueAndPassToken (deliver loopbackNet (0 + 1)) loneNode 5 freshWorld
          = some (w1, [Event.send ("http://a" ++ "/token")
                        { Issuer := "A", IssuedAt := 5, Signers := ["http://a"] }]) ∧
        w1.posts = freshWorld.posts ++ [("http://a" ++ "/token",
                        { Issuer := "A", IssuedAt := 5, Signers := ["http://a"] })] ∧
        (w1.recorders 0).Get = some { Issuer := "A", IssuedAt := 5, Signers := ["http://a"] } :=
  ⟨rfl, (lone_node_issue_completes loneNode 5 rfl).2.2 loopbackNet 0 0 0 freshWorld rfl rfl rfl⟩

/-! ## C8 -/

theorem verifyRing_recorders_posted (a : Ring) (token : Tok) (w : World) (ps : List (String × Tok)) :
    (verifyRing a token { w with posts := ps }).recorders = (verifyRing a token w).recorders := by
  unfold verifyRing
  cases a.status <;> rfl

theorem fallback_to_issuer (net : Net) (fuel : Nat) (a : Ring) (ia : Nat) (r : Ring)
    (now : Int) (sigs : List String) (w : World)
    (hA : net.nodes[ia]? = some a)
    (hpub : ∀ t, net.route t (a.PublicAddr ++ "/token") = some ia ∨
      net.route t (a.PublicAddr ++ "/token") = none)
    (hn : r.KnownNeighbor ≠ "")
    (hfail : net.route w.posts.length (r.KnownNeighbor ++ "/token") = none) :
    ∃ w1 es, forwardToken (deliver net (fuel + 1)) r
        { Issuer := a.ID, IssuedAt := now, Signers := a.PublicAddr :: sigs } w = some (w1, es) ∧
      w1.posts = w.posts ++
        [(r.KnownNeighbor ++ "/token", { Issuer := a.ID, IssuedAt := now, Signers := a.PublicAddr :: sigs }),
         (a.PublicAddr ++ "/token", { Issuer := a.ID, IssuedAt := now, Signers := a.PublicAddr :: sigs })] ∧
      (w1.recorders = (verifyRing a
          { Issuer := a.ID, IssuedAt := now, Signers := a.PublicAddr :: sigs } w).recorders ∨
        w1.recorders = w.recorders) := by
  have e1 := deliver_unreachable net fuel (r.KnownNeighbor ++ "/token")
    { Issuer := a.ID, IssuedAt := now, Signers := a.PublicAddr :: sigs } w hfail
  rw [forwardToken_err _ r _ w _ hn e1]
  rcases hpub (w.posted (r.KnownNeighbor ++ "/token")
    { Issuer := a.ID, IssuedAt := now, Signers := a.PublicAddr :: sigs }).posts.length with hr | hr
  · have e2 := deliver_closes net fuel (a.PublicAddr ++ "/token")
      { Issuer := a.ID, IssuedAt := now, Signers := a.PublicAddr :: sigs }
      (w.posted (r.KnownNeighbor ++ "/token")
        { Issuer := a.ID, IssuedAt := now, Signers := a.PublicAddr :: sigs }) ia a hr hA rfl
    rw [returnToIssuer_resp _ _ _ _ a.PublicAddr sigs StatusOK rfl e2]
    refine ⟨_, _, rfl, ?_, Or.inl ?_⟩
    · rw [verifyRing_posts]
      simp [World.posted]
    · unfold verifyRing
      cases a.status <;> rfl
  · have e2 := deliver_unreachable net fuel (a.PublicAddr ++ "/token")
      { Issuer := a.ID, IssuedAt := now, Signers := a.PublicAddr :: sigs }
      (w.posted (r.KnownNeighbor ++ "/token")
        { Issuer := a.ID, IssuedAt := now, Signers := a.PublicAddr :: sigs }) hr
    rw [returnToIssuer_err _ _ _ _ a.PublicAddr sigs rfl e2]
    exact ⟨_, _, rfl, by simp [World.posted], Or.inr rfl⟩

theorem broken_from (net : Net) (a : Ring) (ia : Nat) (now : Int)
    (hA : net.nodes[ia]? = some a)
    (hpub : ∀ t, net.route t (a.PublicAddr ++ "/token") = some ia ∨
      net.route t (a.PublicAddr ++ "/token") = none)
    (last : Ring) (hn : last.KnownNeighbor ≠ "")
    (hfail : ∀ t, net.route t (last.KnownNeighbor ++ "/token") = none) (rs : List Ring) :
    ∀ (r : Ring) (sigs : List String) (w : World) (fuel : Nat),
      List.Chain' (Link net) (r :: rs) → (∀ x ∈ rs, x.ID ≠ a.ID) →
      (r :: rs).getLast? = some last → rs.length + 1 ≤ fuel →
      ∃ w1 es, forwardToken (deliver net fuel) r
          { Issuer := a.ID, IssuedAt := now, Signers := a.PublicAddr :: sigs } w = some (w1, es) ∧
        w1.posts = w.posts ++ hopPosts a.ID now (a.PublicAddr :: sigs) r rs ++
          [(a.PublicAddr ++ "/token",
            { Issuer := a.ID, IssuedAt := now, Signers := a.PublicAddr :: sigs ++ rs.map Ring.PublicAddr })] ∧
        (w1.recorders = (verifyRing a
            { Issuer := a.ID, IssuedAt := now, Signers := a.PublicAddr :: sigs ++ rs.map Ring.PublicAddr }
            w).recorders ∨
          w1.recorders = w.recorders) := by
  induction rs with
  | nil =>
    intro r sigs w fuel _ _ hl hf
    have hrl : r = last := by simpa using hl
    subst hrl
    obtain ⟨f, rfl⟩ : ∃ f, fuel = f + 1 := ⟨fuel - 1, by simp at hf; omega⟩
    obtain ⟨w1, es, h1, h2, h3⟩ := fallback_to_issuer net f a ia r now sigs w hA hpub hn
      (hfail w.posts.length)
    refine ⟨w1, es, h1, ?_, ?_⟩
    · rw [h2]
      simp [hopPosts]
    · simpa using h3
  | cons n rs ih =>
    intro r sigs w fuel hc hx hl hf
    rw [List.chain'_cons] at hc
    obtain ⟨⟨hrn, hroute⟩, hc'⟩ := hc
    obtain ⟨j, hj, hnode⟩ := hroute w.posts.length
    obtain ⟨f, rfl⟩ : ∃ f, fuel = f + 1 := ⟨fuel - 1, by simp at hf; omega⟩
    have hne : ({ Issuer := a.ID, IssuedAt := now, Signers := a.PublicAddr :: sigs } : Tok).Issuer
        ≠ n.ID := fun h => hx n (List.mem_cons_self _ _) h.symm
    have e := deliver_forwards net f (r.KnownNeighbor ++ "/token")
      { Issuer := a.ID, IssuedAt := now, Signers := a.PublicAddr :: sigs } w j n hj hnode hne
    obtain ⟨w1, es, h1, h2, h3⟩ := ih n (sigs ++ [n.PublicAddr])
      (w.posted (r.KnownNeighbor ++ "/token")
        { Issuer := a.ID, IssuedAt := now, Signers := a.PublicAddr :: sigs })
      f hc' (fun x hxm => hx x (List.mem_cons_of_mem _ hxm))
      (by rw [← hl, List.getLast?_cons_cons]) (by simp at hf; omega)
    rw [show signed n { Issuer := a.ID, IssuedAt := now, Signers := a.PublicAddr :: sigs }
      = { Issuer := a.ID, IssuedAt := now, Signers := a.PublicAddr :: (sigs ++ [n.PublicAddr]) }
      from rfl, h1] at e
    refine ⟨w1, _, forwardToken_ok _ r _ w _ hrn e, ?_, ?_⟩
    · rw [h2]
      simp [hopPosts, World.posted]
    · rcases h3 with h3 | h3
      · left
        rw [h3]
        simp [World.posted, verifyRing_recorders_posted]
      · right
        rw [h3]
        rfl

theorem hopPosts_getLast_url (issuer : String) (now : Int) (last : Ring) (rs : List Ring) :
    ∀ (sig : List String) (r : Ring), (r :: rs).getLast? = some last →
      (hopPosts issuer now sig r rs).getLast?
        = some (last.KnownNeighbor ++ "/token",
            { Issuer := issuer, IssuedAt := now, Signers := sig ++ rs.map Ring.PublicAddr }) := by
  induction rs with
  | nil =>
    intro sig r hl
    have hrl : r = last := by simpa using hl
    subst hrl
    simp [hopPosts]
  | cons n rs ih =>
    intro sig r hl
    rw [List.getLast?_cons_cons] at hl
    rw [hopPosts, List.getLast?_cons, ih (sig ++ [n.PublicAddr]) n hl]
    simp

/-- C8: A issues a token; it is forwarded through any number of nodes other
than the issuer (`hops`, each link delivering) and reaches a node `last` whose
neighbour delivery fails.  If A's public address is served by A (or by nobody),
the run returns; after the failed attempt there is exactly one more delivery,
the fallback, addressed to A's public address (the token's signers[0]) with the
token as it was at the failed hop; A closes the loop without sending anything,
or the fallback fails and the token is dropped.  No third node receives it. -/
theorem failed_hop_returns_to_issuer (net : Net) (fuel : Nat) (a : Ring) (ia : Nat) (now : Int)
    (hops : List Ring) (last : Ring) (w : World)
    (hA : net.nodes[ia]? = some a)
    (hpub : ∀ t, net.route t (a.PublicAddr ++ "/token") = some ia ∨
      net.route t (a.PublicAddr ++ "/token") = none)
    (hchain : List.Chain' (Link net) (a :: hops))
    (hids : ∀ x ∈ hops, x.ID ≠ a.ID)
    (hlast : (a :: hops).getLast? = some last)
    (hn : last.KnownNeighbor ≠ "")
    (hfail : ∀ t, net.route t (last.KnownNeighbor ++ "/token") = none)
    (hfuel : hops.length + 1 ≤ fuel) :
    ∃ w1 es, IssueAndPassToken (deliver net fuel) a now w = some (w1, es) ∧
      w1.posts = w.posts ++ hopPosts a.ID now [a.PublicAddr] a hops ++
        [(a.PublicAddr ++ "/token",
          { Issuer := a.ID, IssuedAt := now, Signers := (a :: hops).map Ring.PublicAddr })] ∧
      (hopPosts a.ID now [a.PublicAddr] a hops).getLast?
        = some (last.KnownNeighbor ++ "/token",
          { Issuer := a.ID, IssuedAt := now, Signers := (a :: hops).map Ring.PublicAddr }) ∧
      (w1.recorders = (verifyRing a
          { Issuer := a.ID, IssuedAt := now, Signers := (a :: hops).map Ring.PublicAddr }
          w).recorders ∨
        w1.recorders = w.recorders) := by
  obtain ⟨w1, es, h1, h2, h3⟩ := broken_from net a ia now hA hpub last hn hfail hops a [] w fuel
    hchain hids hlast hfuel
  refine ⟨w1, es, h1, ?_, ?_, ?_⟩
  · simpa using h2
  · have h := hopPosts_getLast_url a.ID now last hops [a.PublicAddr] a hlast
    simpa using h
  · simpa using h3

theorem brokenNet_chain : List.Chain' (Link brokenNet) [nodeA, nodeB] := by
  rw [List.chain'_cons]
  exact ⟨⟨by decide, fun _ => ⟨1, rfl, rfl⟩⟩, List.chain'_singleton _⟩

theorem failed_hop_returns_to_issuer_witness :
    ∃ w1 es, IssueAndPassToken (deliver brokenNet 2) nodeA 0 freshWorld = some (w1, es) ∧
      w1.posts = freshWorld.posts ++ hopPosts "A" 0 ["http://a"] nodeA [nodeB] ++
        [("http://a" ++ "/token",
          { Issuer := "A", IssuedAt := 0, Signers := ["http://a", "http://b"] })] ∧
      (hopPosts "A" 0 ["http://a"] nodeA [nodeB]).getLast?
        = some ("http://c" ++ "/token",
          { Issuer := "A", IssuedAt := 0, Signers := ["http://a", "http://b"] }) ∧
      (w1.recorders = (verifyRing nodeA
          { Issuer := "A", IssuedAt := 0, Signers := ["http://a", "http://b"] }
          freshWorld).recorders ∨
        w1.recorders = freshWorld.recorders) :=
  failed_hop_returns_to_issuer brokenNet 2 nodeA 0 0 [nodeB] nodeB freshWorld rfl
    (fun _ => Or.inl rfl) brokenNet_chain (by decide) rfl (by decide) (fun _ => rfl) (by decide)

theorem brokenNet_example :
    (IssueAndPassToken (deliver brokenNet 2) nodeA 0 freshWorld).map
        (fun res => ((res.1.recorders 0).Get, res.1.posts.map Prod.fst, res.2))
      = some (some { Issuer := "A", IssuedAt := 0, Signers := ["http://a", "http://b"] },
              ["http://b/token", "http://c/token", "http://a/token"],
              [Event.send "http://b/token" tokenFromA]) := by
  rfl

/-! ## C1 -/

theorem hopPosts_getLast (issuer : String) (now : Int) (rs : List Ring) :
    ∀ (sig : List String) (r : Ring), ∃ url,
      (hopPosts issuer now sig r rs).getLast?
        = some (url, { Issuer := issuer, IssuedAt := now,
                       Signers := sig ++ rs.map Ring.PublicAddr }) := by
  induction rs with
  | nil => intro sig r; exact ⟨r.KnownNeighbor ++ "/token", by simp [hopPosts]⟩
  | cons n rs ih =>
    intro sig r
    obtain ⟨url, hu⟩ := ih (sig ++ [n.PublicAddr]) n
    refine ⟨url, ?_⟩
    rw [hopPosts, List.getLast?_cons, hu]
    simp

theorem hopPosts_length (issuer : String) (now : Int) (rs : List Ring) :
    ∀ (sig : List String) (r : Ring), (hopPosts issuer now sig r rs).length = rs.length + 1 := by
  induction rs with
  | nil => intro sig r; rfl
  | cons n rs ih => intro sig r; simp [hopPosts, ih]

theorem traversal_from (net : Net) (a : Ring) (now : Int)
    (hnb : ∀ i r, net.nodes[i]? = some r → r.KnownNeighbor ≠ "" ∧
      ∀ t, net.route t (r.KnownNeighbor ++ "/token") = some ((i + 1) % net.nodes.length))
    (h0 : net.nodes[0]? = some a) (rs : List Ring) :
    ∀ (r : Ring) (i : Nat) (sig : List String) (w : World) (fuel : Nat),
      net.nodes.drop i = r :: rs → (∀ x ∈ rs, x.ID ≠ a.ID) → rs.length + 1 ≤ fuel →
      forwardToken (deliver net fuel) r { Issuer := a.ID, IssuedAt := now, Signers := sig } w
        = some (verifyRing a
                  { Issuer := a.ID, IssuedAt := now, Signers := sig ++ rs.map Ring.PublicAddr }
                  { w with posts := w.posts ++ hopPosts a.ID now sig r rs },
                [Event.send (r.KnownNeighbor ++ "/token")
                  { Issuer := a.ID, IssuedAt := now, Signers := sig }]) := by
  induction rs with
  | nil =>
    intro r i sig w fuel hd _ hf
    have hi : net.nodes[i]? = some r := by
      have h := List.getElem?_drop net.nodes i 0
      rw [hd] at h
      simpa using h.symm
    have hl : net.nodes.length - i = 1 := by
      have h := congrArg List.length hd
      simpa using h
    have hlt : i < net.nodes.length := by omega
    have hmod : (i + 1) % net.nodes.length = 0 := by
      have : i + 1 = net.nodes.length := by omega
      rw [this, Nat.mod_self]
    obtain ⟨f, rfl⟩ : ∃ f, fuel = f + 1 := ⟨fuel - 1, by simp at hf; omega⟩
    obtain ⟨hn, hr⟩ := hnb i r hi
    have hroute := hr w.posts.length
    rw [hmod] at hroute
    have e := deliver_closes net f (r.KnownNeighbor ++ "/token")
      { Issuer := a.ID, IssuedAt := now, Signers := sig } w 0 a hroute h0 rfl
    rw [forwardToken_ok _ r _ w _ hn e]
    simp [hopPosts, World.posted]
  | cons n rs ih =>
    intro r i sig w fuel hd hx hf
    have hi : net.nodes[i]? = some r := by
      have h := List.getElem?_drop net.nodes i 0
      rw [hd] at h
      simpa using h.symm
    have hd1 : net.nodes.drop (i + 1) = n :: rs := by
      rw [← List.tail_drop, hd]
      rfl
    have hi1 : net.nodes[i + 1]? = some n := by
      have h := List.getElem?_drop net.nodes (i + 1) 0
      rw [hd1] at h
      simpa using h.symm
    have hl : net.nodes.length - i = rs.length + 2 := by
      have h := congrArg List.length hd
      simpa using h
    have hmod : (i + 1) % net.nodes.length = i + 1 := Nat.mod_eq_of_lt (by omega)
    obtain ⟨f, rfl⟩ : ∃ f, fuel = f + 1 := ⟨fuel - 1, by simp at hf; omega⟩
    obtain ⟨hn, hr⟩ := hnb i r hi
    have hroute := hr w.posts.length
    rw [hmod] at hroute
    have hne : ({ Issuer := a.ID, IssuedAt := now, Signers := sig } : Tok).Issuer ≠ n.ID :=
      fun h => hx n (List.mem_cons_self _ _) h.symm
    have e := deliver_forwards net f (r.KnownNeighbor ++ "/token")
      { Issuer := a.ID, IssuedAt := now, Signers := sig } w (i + 1) n hroute hi1 hne
    have hrec := ih n (i + 1) (sig ++ [n.PublicAddr])
      (w.posted (r.KnownNeighbor ++ "/token") { Issuer := a.ID, IssuedAt := now, Signers := sig })
      f hd1 (fun x hxm => hx x (List.mem_cons_of_mem _ hxm)) (by simp at hf; omega)
    rw [show signed n { Issuer := a.ID, IssuedAt := now, Signers := sig }
      = { Issuer := a.ID, IssuedAt := now, Signers := sig ++ [n.PublicAddr] } from rfl, hrec] at e
    rw [forwardToken_ok _ r _ w _ hn e]
    simp [hopPosts, World.posted]

/-- C1: in a ring of n ≥ 1 nodes with pairwise distinct ids, node 0 being the
issuer, in which every node has a neighbour address that delivers to the next
node (the last one's to node 0), `IssueAndPassToken` on the issuer returns
(given fuel for n nested handlers); the posts made are one per node in ring
order, the last of them carrying the token back to the issuer with signers =
the public addresses of nodes 0, 1, ..., n-1 in this order, one entry per node;
and `Get` on the issuer's recorder then returns the token with exactly these
signers. -/
theorem ring_traversal_records_signers (net : Net) (a : Ring) (p : Nat) (now : Int) (w : World)
    (fuel : Nat)
    (h0 : net.nodes[0]? = some a)
    (hids : (net.nodes.map Ring.ID).Nodup)
    (hnb : ∀ i r, net.nodes[i]? = some r → r.KnownNeighbor ≠ "" ∧
      ∀ t, net.route t (r.KnownNeighbor ++ "/token") = some ((i + 1) % net.nodes.length))
    (hst : a.status = some p) (hfuel : net.nodes.length ≤ fuel) :
    ∃ w1 url, IssueAndPassToken (deliver net fuel) a now w
        = some (w1, [Event.send (a.KnownNeighbor ++ "/token")
                      { Issuer := a.ID, IssuedAt := now, Signers := [a.PublicAddr] }]) ∧
      w1.posts = w.posts ++ hopPosts a.ID now [a.PublicAddr] a net.nodes.tail ∧
      (hopPosts a.ID now [a.PublicAddr] a net.nodes.tail).length = net.nodes.length ∧
      w1.posts.getLast? = some (url, { Issuer := a.ID, IssuedAt := now,
                                       Signers := net.nodes.map Ring.PublicAddr }) ∧
      (w1.recorders p).Get = some { Issuer := a.ID, IssuedAt := now,
                                    Signers := net.nodes.map Ring.PublicAddr } := by
  cases hnodes : net.nodes with
  | nil => simp [hnodes] at h0
  | cons x tl =>
    have hxa : x = a := by simpa [hnodes] using h0
    subst hxa
    have hx : ∀ y ∈ tl, y.ID ≠ x.ID := by
      intro y hy heq
      rw [hnodes] at hids
      simp only [List.map_cons, List.nodup_cons, List.mem_map, not_exists, not_and] at hids
      exact hids.1 y hy heq
    have hrun := traversal_from net x now hnb h0 tl x 0 [x.PublicAddr] w fuel
      (by simp [hnodes]) hx (by rw [hnodes] at hfuel; simpa using hfuel)
    obtain ⟨url, hu⟩ := hopPosts_getLast x.ID now tl [x.PublicAddr] x
    have hne : hopPosts x.ID now [x.PublicAddr] x tl ≠ [] := by
      intro h
      have := hopPosts_length x.ID now tl [x.PublicAddr] x
      rw [h] at this
      simp at this
    refine ⟨_, url, hrun, ?_, ?_, ?_, ?_⟩
    · rw [verifyRing_posts]
      rfl
    · rw [List.tail_cons, hopPosts_length]
      rfl
    · rw [verifyRing_posts]
      show (w.posts ++ hopPosts x.ID now [x.PublicAddr] x tl).getLast? = _
      rw [List.getLast?_append_of_ne_nil _ hne, hu]
      rfl
    · rw [verifyRing_Get x _ _ p hst]
      rfl

theorem ringABC_neighbors : ∀ (i : Nat) (r : Ring), ringABC.nodes[i]? = some r →
    r.KnownNeighbor ≠ "" ∧
      ∀ t, ringABC.route t (r.KnownNeighbor ++ "/token") = some ((i + 1) % ringABC.nodes.length)
  | 0, r, h => by
    have hr : r = nodeA := by simpa [ringABC] using h.symm
    subst hr
    exact ⟨by decide, fun _ => rfl⟩
  | 1, r, h => by
    have hr : r = nodeB := by simpa [ringABC] using h.symm
    subst hr
    exact ⟨by decide, fun _ => rfl⟩
  | 2, r, h => by
    have hr : r = nodeC := by simpa [ringABC] using h.symm
    subst hr
    exact ⟨by decide, fun _ => rfl⟩
  | k + 3, r, h => by simp [ringABC] at h

theorem ringABC_example :
    (IssueAndPassToken (deliver ringABC 3) nodeA 0 freshWorld).map
        (fun res => ((res.1.recorders 0).Get, res.1.posts.length))
      = some (some { Issuer := "A", IssuedAt := 0,
                     Signers := ["http://a", "http://b", "http://c"] }, 3) := by
  rfl

theorem ring_traversal_records_signers_witness :
    ∃ w1 url, IssueAndPassToken (deliver ringABC 3) nodeA 0 freshWorld
        = some (w1, [Event.send ("http://b" ++ "/token")
                      { Issuer := "A", IssuedAt := 0, Signers := ["http://a"] }]) ∧
      w1.posts = freshWorld.posts ++ hopPosts "A" 0 ["http://a"] nodeA [nodeB, nodeC] ∧
      (hopPosts "A" 0 ["http://a"] nodeA [nodeB, nodeC]).length = 3 ∧
      w1.posts.getLast? = some (url, { Issuer := "A", IssuedAt := 0,
                                       Signers := ["http://a", "http://b", "http://c"] }) ∧
      (w1.recorders 0).Get = some { Issuer := "A", IssuedAt := 0,
                                    Signers := ["http://a", "http://b", "http://c"] } :=
  ring_traversal_records_signers ringABC nodeA 0 0 freshWorld 3 rfl (by decide)
    ringABC_neighbors rfl (by decide)

end Ringrollers
